import Mathlib

/-!
Verification of the Alfreyaa conversational client.

This file gives a shallow embedding of the repository's core logic and proves
or refutes the frozen claims about it.  The embedded pieces are:

* the intent classifier implemented by the `if`/`else` chain of
  `handleSendMessage` (App component),
* the Gemini capability adapters of `services/geminiService.ts`,
* the deployment pipeline `deployApp` of `services/deploymentService.ts`,
* the HTML text extractor of `services/websiteService.ts`,
* the in-flight guard of the session controller (`handleSendMessage`).

Strings are modelled as `List Char` where character-level scanning matters
(classification, HTML cleaning) and as `String` elsewhere.  JavaScript's
`toLowerCase()` on the ASCII inputs involved is modelled by lowering the
code point of A–Z; a keyword match against the lowercased command is
equivalently modelled by case-insensitive matching against the original
command, since every keyword literal in the source is already lowercase.
-/

namespace Alfreyaa

/-! ### Case-insensitive character matching (models `toLowerCase` / regex `i` flag) -/

/-- Lower-case an ASCII code point, as JavaScript `toLowerCase` does on ASCII. -/
def lowerN (n : Nat) : Nat := if 65 ≤ n ∧ n ≤ 90 then n + 32 else n

/-- Case-insensitive character equality on code points. -/
def ciEqChar (a b : Char) : Bool := lowerN a.toNat == lowerN b.toNat

/-- `ciPrefix pat s`: `pat` is a case-insensitive prefix of `s`. -/
def ciPrefix : List Char → List Char → Bool
  | [], _ => true
  | _ :: _, [] => false
  | p :: ps, c :: cs => ciEqChar p c && ciPrefix ps cs

/-- `ciContains pat s`: `pat` occurs case-insensitively somewhere in `s`.
Models JavaScript `lowered.includes(pat)` for a lowercase `pat`. -/
def ciContains (pat : List Char) : List Char → Bool
  | [] => pat.isEmpty
  | c :: rest => ciPrefix pat (c :: rest) || ciContains pat rest

/-- `containsSub pat s`: `pat` occurs verbatim somewhere in `s`.
Models JavaScript `s.includes(pat)` on a string that has not been
lowercased (case-sensitive). -/
def containsSub (pat : List Char) : List Char → Bool
  | [] => pat.isEmpty
  | c :: rest => pat.isPrefixOf (c :: rest) || containsSub pat rest

/-! ### Intent classification (the `if`/`else` chain of `handleSendMessage`) -/

/-- Whitespace characters of the JavaScript regex class `\s` (ASCII part). -/
def isWs (c : Char) : Bool :=
  c = ' ' || c = '\t' || c = '\n' || c = '\r' || c = '\x0b' || c = '\x0c'

/-- The first character of `s` exists and is not whitespace
(one step of the regex `\S+`). -/
def startsNonWs : List Char → Bool
  | [] => false
  | c :: _ => !(isWs c)

/-- The regex `https?:\/\/\S+` matches at the head of `s`.
The source tests the raw (not lowercased) command, so this is case-sensitive. -/
def urlAt (s : List Char) : Bool :=
  ("http://".toList.isPrefixOf s && startsNonWs (s.drop 7)) ||
  ("https://".toList.isPrefixOf s && startsNonWs (s.drop 8))

/-- `prompt.match(/(https?:\/\/\S+)/)` succeeds: the URL pattern matches at
some position of the command. -/
def hasUrl : List Char → Bool
  | [] => false
  | c :: rest => urlAt (c :: rest) || hasUrl rest

/-- The apostrophe character (code point 39). -/
def apChar : Char := Char.ofNat 39

/-- The keyword string `what's new` (built explicitly around the apostrophe). -/
def kwWhatsNew : List Char := "what".toList ++ [apChar] ++ "s new".toList

/-- `searchKeywords` from `handleSendMessage`. -/
def searchKeywords : List (List Char) :=
  ["search for".toList, "what is".toList, "who is".toList, "find out".toList,
   "latest".toList, "look up".toList, "tell me about".toList, kwWhatsNew]

/-- `deployKeywords` from `handleSendMessage`. -/
def deployKeywords : List (List Char) :=
  ["deploy".toList, "publish".toList, "go live".toList]

/-- `modificationKeywords` from `handleSendMessage`. -/
def modificationKeywords : List (List Char) :=
  ["change your".toList, "modify the".toList, "update the".toList,
   "add a feature".toList, "implement a".toList, "rewrite the".toList]

/-- The capability intents distinguished by the dispatch chain. -/
inductive Intent
  | CodeModification
  | ImageGeneration
  | UrlAnalysis
  | GroundedSearch
  | Deployment
  | PlainText
deriving DecidableEq, Repr

/-- The classification performed by the `if`/`else` chain of
`handleSendMessage`: modification prefixes, then image phrases, then the URL
regex, then search keywords, then deploy keywords, else plain text.
Keyword tests run against the lowercased command (modelled by
case-insensitive matching); the URL regex runs against the raw command. -/
def classify (prompt : List Char) : Intent :=
  if modificationKeywords.any (fun k => ciPrefix k prompt) then
    .CodeModification
  else if ciContains "generate image".toList prompt ||
      ciContains "show me a picture".toList prompt then
    .ImageGeneration
  else if hasUrl prompt then
    .UrlAnalysis
  else if searchKeywords.any (fun k => ciContains k prompt) then
    .GroundedSearch
  else if deployKeywords.any (fun k => ciContains k prompt) then
    .Deployment
  else
    .PlainText

/-- Modelled from the spec: a URL pattern of the form `scheme://nonwhitespace+`
(a nonempty alphabetic scheme, then `://`, then at least one non-whitespace
character) matches at the head of `s`.  This follows the claim's wording, to
be compared with the source's `https?:\/\/\S+`. -/
def specUrlAt (s : List Char) : Bool :=
  let scheme := s.takeWhile (fun c => c.isAlpha)
  let rest := s.dropWhile (fun c => c.isAlpha)
  !scheme.isEmpty && "://".toList.isPrefixOf rest && startsNonWs (rest.drop 3)

/-- Modelled from the spec: the command contains a `scheme://nonwhitespace+`
URL at some position. -/
def hasSpecUrl : List Char → Bool
  | [] => false
  | c :: rest => specUrlAt (c :: rest) || hasSpecUrl rest

/-! ### HTML text extraction (`fetchWebsiteContent`, services/websiteService.ts)

The source cleans fetched markup with four global regex replacements and a
truncation:
```
html.replace(/<style[^>]*>[\s\S]*?<\/style>/gi, '')
    .replace(/<script[^>]*>[\s\S]*?<\/script>/gi, '')
    .replace(/<[^>]*>/g, '')
    .replace(/\s+/g, ' ')
    .trim()
    .substring(0, 15000)
```
Each replacement scans left to right; `[^>]*>` consumes up to and including
the first `>`, and the non-greedy `[\s\S]*?<\/style>` stops at the first
case-insensitive occurrence of the closing tag.  The scanners below are
written with an explicit fuel argument (the input length) so that they are
structural recursions the kernel can evaluate. -/

/-- Drop characters up to and including the first occurrence of `ch`;
`none` if `ch` does not occur.  Models the regex fragment `[^>]*>` (for
`ch := '>'`). -/
def dropUntilAfterChar (ch : Char) : List Char → Option (List Char)
  | [] => none
  | c :: rest => if c = ch then some rest else dropUntilAfterChar ch rest

/-- Find the first case-insensitive occurrence of `close` and return the
suffix after it; `none` if there is no occurrence.  Models the non-greedy
`[\s\S]*?` followed by the literal closing tag. -/
def findClose (close : List Char) : List Char → Option (List Char)
  | [] => none
  | c :: rest =>
    if ciPrefix close (c :: rest) then some ((c :: rest).drop close.length)
    else findClose close rest

/-- The block regex `<tag[^>]*>[\s\S]*?<\/tag>` matches at the head of `s`
(case-insensitively); returns the suffix after the whole match. -/
def matchBlockAt (openPat close s : List Char) : Option (List Char) :=
  if ciPrefix openPat s then
    match dropUntilAfterChar '>' (s.drop openPat.length) with
    | none => none
    | some rest => findClose close rest
  else none

/-- Fuelled global replacement of block matches by the empty string:
at each position, if the block regex matches, skip the match and continue
after it, otherwise keep the character and advance one position. -/
def replaceBlocksF (openPat close : List Char) : Nat → List Char → List Char
  | 0, _ => []
  | _ + 1, [] => []
  | fuel + 1, c :: rest =>
    match matchBlockAt openPat close (c :: rest) with
    | some after => replaceBlocksF openPat close fuel after
    | none => c :: replaceBlocksF openPat close fuel rest

/-- `.replace(/<tag[^>]*>[\s\S]*?<\/tag>/gi, '')`. -/
def replaceBlocks (openPat close s : List Char) : List Char :=
  replaceBlocksF openPat close s.length s

/-- Fuelled version of `.replace(/<[^>]*>/g, '')`. -/
def stripTagsF : Nat → List Char → List Char
  | 0, _ => []
  | _ + 1, [] => []
  | fuel + 1, c :: rest =>
    if c = '<' then
      match dropUntilAfterChar '>' rest with
      | some after => stripTagsF fuel after
      | none => c :: stripTagsF fuel rest
    else c :: stripTagsF fuel rest

/-- `.replace(/<[^>]*>/g, '')`: remove every `<`…first-`>` span. -/
def stripTags (s : List Char) : List Char := stripTagsF s.length s

/-- Fuelled version of `.replace(/\s+/g, ' ')`. -/
def collapseWsF : Nat → List Char → List Char
  | 0, _ => []
  | _ + 1, [] => []
  | fuel + 1, c :: rest =>
    if isWs c then ' ' :: collapseWsF fuel (rest.dropWhile isWs)
    else c :: collapseWsF fuel rest

/-- `.replace(/\s+/g, ' ')`: collapse whitespace runs to single spaces. -/
def collapseWs (s : List Char) : List Char := collapseWsF s.length s

/-- `.trim()`: drop leading and trailing whitespace. -/
def trimWs (s : List Char) : List Char :=
  ((s.dropWhile isWs).reverse.dropWhile isWs).reverse

/-- The style open-tag regex prefix `<style`. -/
def styleOpen : List Char := "<style".toList

/-- The style closing tag `</style>`. -/
def styleClose : List Char := "</style>".toList

/-- The script open-tag regex prefix `<script`. -/
def scriptOpen : List Char := "<script".toList

/-- The script closing tag `</script>`. -/
def scriptClose : List Char := "</script>".toList

/-- `const maxLength = 15000`. -/
def maxLength : Nat := 15000

/-- The cleaning pipeline of `fetchWebsiteContent` applied to fetched markup:
strip style blocks, then script blocks, then all tags, collapse whitespace,
trim, and truncate to `maxLength` characters. -/
def extractText (html : List Char) : List Char :=
  (trimWs (collapseWs (stripTags
    (replaceBlocks scriptOpen scriptClose
      (replaceBlocks styleOpen styleClose html))))).take maxLength

/-- `pat` is case-insensitively equal to `s` (same length, ci-prefix). -/
def ciEqList (pat s : List Char) : Bool :=
  pat.length == s.length && ciPrefix pat s

/-- `pat` occurs case-insensitively starting at some position of `s`,
where the occurrence may extend into the continuation `tail`
(`s` is scanned as the front part of `s ++ tail`). -/
def hasCiOccur (pat : List Char) : List Char → List Char → Bool
  | [], _ => false
  | c :: rest, tail => ciPrefix pat ((c :: rest) ++ tail) || hasCiOccur pat rest tail

/-! ### Gemini capability adapters (services/geminiService.ts)

Provider calls are modelled by their outcome: either a typed response value
or a thrown JavaScript value (an `Error` carrying a message, or some other
value rendered by `String(...)`).  The guard `if (!initializeAi() || !ai)`
is modelled by a single `clientOk` flag: it fails exactly when the lazy
client is absent and `API_KEY` is unset. -/

/-- A thrown JavaScript value: `isError` says whether it is an `Error`
instance; `message` is its `.message` (or its string rendering). -/
structure JsErr where
  isError : Bool
  message : String
deriving DecidableEq, Repr

/-- Outcome of an awaited provider call: a value, or a thrown error. -/
inductive Outcome (α : Type)
  | ok (val : α)
  | thrown (e : JsErr)
deriving DecidableEq, Repr

/-- `handleMissingApiKey()`. -/
def missingKeyMsg : String :=
  "My apologies, Kaarthi. I am not properly configured. The API_KEY is missing from my environment."

/-- Fallback text of `generateTextResponse`. -/
def malfunctionMsg : String :=
  "Apologies, Kaarthi. I seem to be experiencing a system malfunction."

/-- Fallback text of `generateGroundedResponse`. -/
def groundedFailMsg : String :=
  "Apologies, Kaarthi. I encountered an issue while accessing my information retrieval systems."

/-- Converted failure message of `generateImageResponse`. -/
def imageFailMsg : String :=
  "I was unable to generate the image as requested, Kaarthi."

/-- Fallback text of `generateWebsiteAnalysis`. -/
def websiteFailMsg : String :=
  "My apologies, Kaarthi. I encountered an error while analyzing the website content."

/-- Fallback explanation of `generateCodeModification`. -/
def codeModFailMsg : String :=
  "My apologies, Kaarthi. I encountered a critical error in my self-modification subroutines. I was unable to process the requested change."

/-- `generateTextResponse`: returns the provider text, the missing-key
apology when the client cannot be initialized, or the malfunction message
when the provider throws.  It never throws. -/
def generateTextResponse (clientOk : Bool) (provider : Outcome String) : String :=
  if !clientOk then missingKeyMsg
  else
    match provider with
    | .ok t => t
    | .thrown _ => malfunctionMsg

/-- A `{uri, title}` citation pair. -/
structure Source where
  uri : String
  title : String
deriving DecidableEq, Repr

/-- `chunk.web`: optional `uri`/`title` fields of a grounding chunk. -/
structure WebInfo where
  uri : Option String
  title : Option String
deriving DecidableEq, Repr

/-- One entry of `groundingMetadata.groundingChunks`. -/
structure Chunk where
  web : Option WebInfo
deriving DecidableEq, Repr

/-- JavaScript truthiness of an optional string field
(absent and empty strings are falsy). -/
def truthyStr : Option String → Bool
  | none => false
  | some s => !s.isEmpty

/-- The chunk-to-source extraction of `generateGroundedResponse`:
keep chunks with a `web` field whose `uri` and `title` are truthy, and
project them to `{uri, title}` pairs. -/
def extractSources (chunks : List Chunk) : List Source :=
  ((chunks.filterMap Chunk.web).filter
      (fun w => truthyStr w.uri && truthyStr w.title)).map
    (fun w => ⟨w.uri.getD "", w.title.getD ""⟩)

/-- One `map.set(k, v)` step of a JavaScript `Map` represented as an
association list: overwrite the value of an existing key in place,
otherwise append the new binding. -/
def mapUpsert (m : List (String × Source)) (k : String) (v : Source) :
    List (String × Source) :=
  if m.any (fun p => p.1 = k) then
    m.map (fun p => if p.1 = k then (k, v) else p)
  else m ++ [(k, v)]

/-- `Array.from(new Map(sources.map(item => [item['uri'], item])).values())`:
deduplicate by `uri`, keeping first-insertion order and the last-seen value
for each key. -/
def uniqueSources (sources : List Source) : List Source :=
  (sources.foldl (fun m s => mapUpsert m s.uri s) []).map (fun p => p.2)

/-- A grounded-search provider response: the text and the optional
`groundingChunks` of the first candidate's grounding metadata. -/
structure GroundedResp where
  text : String
  chunks : Option (List Chunk)
deriving DecidableEq, Repr

/-- `generateGroundedResponse`: returns the provider text with deduplicated
cited sources; the missing-key apology with no sources when the client is
absent; the retrieval-failure message with no sources when the provider
throws.  It never throws. -/
def generateGroundedResponse (clientOk : Bool) (provider : Outcome GroundedResp) :
    String × List Source :=
  if !clientOk then (missingKeyMsg, [])
  else
    match provider with
    | .ok r =>
      let sources := match r.chunks with
        | some cs => extractSources cs
        | none => []
      (r.text, uniqueSources sources)
    | .thrown _ => (groundedFailMsg, [])

/-- An image-generation provider response: the base64 bytes of each
generated image. -/
structure ImagesResp where
  generatedImages : List String
deriving DecidableEq, Repr

/-- `generateImageResponse`: throws the missing-key error when the client is
absent; returns a data URL for the first generated image; converts an empty
image list or a provider failure into a thrown `Error` with the
image-failure message — except that a thrown `Error` whose message contains
the literal (case-sensitive) substring `API_KEY` is rethrown unchanged,
modelling `error.message.includes("API_KEY")`. -/
def generateImageResponse (clientOk : Bool) (provider : Outcome ImagesResp) :
    Outcome String :=
  if !clientOk then .thrown ⟨true, missingKeyMsg⟩
  else
    match provider with
    | .ok resp =>
      match resp.generatedImages with
      | b :: _ => .ok ("data:image/jpeg;base64," ++ b)
      | [] => .thrown ⟨true, imageFailMsg⟩
    | .thrown e =>
      if e.isError && containsSub "API_KEY".toList e.message.toList then .thrown e
      else .thrown ⟨true, imageFailMsg⟩

/-- `generateWebsiteAnalysis`: provider text, missing-key apology, or the
website-analysis failure message.  It never throws. -/
def generateWebsiteAnalysis (clientOk : Bool) (provider : Outcome String) : String :=
  if !clientOk then missingKeyMsg
  else
    match provider with
    | .ok t => t
    | .thrown _ => websiteFailMsg

/-- One proposed change: a file path and a reason. -/
structure CodeChange where
  file : String
  reason : String
deriving DecidableEq, Repr

/-- The structured code-modification result. -/
structure CodeModificationPayload where
  explanation : String
  changes : List CodeChange
deriving DecidableEq, Repr

/-- `generateCodeModification`: the parsed provider payload; a payload whose
explanation is the missing-key apology (empty change list) when the client
is absent; the failure payload when the provider throws or its response
fails to parse (`JSON.parse` throwing inside the `try`).  It never throws. -/
def generateCodeModification (clientOk : Bool)
    (provider : Outcome (Option CodeModificationPayload)) : CodeModificationPayload :=
  if !clientOk then ⟨missingKeyMsg, []⟩
  else
    match provider with
    | .ok (some p) => p
    | .ok none => ⟨codeModFailMsg, []⟩
    | .thrown _ => ⟨codeModFailMsg, []⟩

/-! ### Deployment pipeline (`deployApp`, services/deploymentService.ts)

`deployApp` is modelled as a pure function of an environment that fixes the
credential tokens and the outcome of every external call.  It returns the
sequence of progress events passed to `onProgress` and the sequence of
network calls issued, in order.  The per-file `PUT` responses are part of
the environment (`filePutOk`) because the source awaits those fetches; the
source never reads the responses, and correspondingly the model never
consults the field. -/

/-- `const PROJECT_FILES = [...]`. -/
def PROJECT_FILES : List String :=
  ["index.html", "index.tsx", "App.tsx", "types.ts", "metadata.json",
   "services/geminiService.ts", "services/deploymentService.ts",
   "services/websiteService.ts", "components/Header.tsx",
   "components/ChatInput.tsx", "components/ChatMessage.tsx",
   "components/TypingIndicator.tsx"]

/-- The `DeploymentStatus` union of types.ts. -/
inductive DeployStatus
  | initializing
  | creating_repo
  | pushing_files
  | creating_site
  | deploying
  | success
  | error
deriving DecidableEq, Repr

/-- One `ProgressUpdate` passed to the `onProgress` callback. -/
structure ProgressUpdate where
  status : DeployStatus
  message : String
  url : Option String := none
deriving DecidableEq, Repr

/-- A network call issued by the pipeline, in issue order. -/
inductive NetCall
  | getUser
  | createRepo
  | getProjectFile (path : String)
  | putFile (path : String)
  | createSite
deriving DecidableEq, Repr

/-- The environment of one deployment run: credential tokens and the
responses of every external endpoint. -/
structure DeployEnv where
  githubToken : Option String
  netlifyToken : Option String
  /-- `GET /user` responds with `ok`. -/
  userOk : Bool
  /-- `POST /user/repos` responds with `ok`. -/
  repoOk : Bool
  /-- `repoResponse.status`, as rendered into the error message. -/
  repoStatus : String
  /-- Whether `fetch('/path')` for each project file responds with `ok`. -/
  fileFetchOk : String → Bool
  /-- The text of each successfully fetched project file. -/
  fileContent : String → String
  /-- The (unchecked) response of each per-file `PUT`. -/
  filePutOk : String → Bool
  /-- `POST /api/v1/sites` responds with `ok`. -/
  siteOk : Bool
  /-- `siteResponse.statusText`, as rendered into the error message. -/
  siteStatusText : String
  /-- `netlifySite.ssl_url`. -/
  siteSslUrl : String
  /-- The rendering of `Date.now()` used in the repository name. -/
  now : String

/-- JavaScript falsiness of an optional token string
(`!GITHUB_TOKEN`): absent or empty. -/
def falsyToken : Option String → Bool
  | none => true
  | some s => s.isEmpty

/-- `file.content.trim() === ""`: every character is whitespace. -/
def allWs (s : String) : Bool := s.toList.all isWs

/-- `getProjectFiles()`: fetch each project file; a failed fetch yields
empty content (the catch branch) rather than an error. -/
def getProjectFiles (env : DeployEnv) : List (String × String) :=
  PROJECT_FILES.map fun p =>
    (p, if env.fileFetchOk p then env.fileContent p else "")

/-- The credential-missing message. -/
def credsMissingMsg : String :=
  "My apologies, Kaarthi. I lack the required deployment credentials (GITHUB_TOKEN or NETLIFY_TOKEN) in my environment to proceed."

/-- The top-level catch converts a thrown message `m` into this terminal
error message. -/
def deployFailMsg (m : String) : String :=
  "I have failed in my deployment task, Kaarthi. An error occurred: " ++ m

/-- `const repoName = ` backtick`alfreyaa-deployment-${Date.now()}`. -/
def repoName (env : DeployEnv) : String := "alfreyaa-deployment-" ++ env.now

/-- `deployApp`: the full pipeline.  Returns the progress events emitted
(in order) and the network calls issued (in order). -/
def deployApp (env : DeployEnv) : List ProgressUpdate × List NetCall :=
  if falsyToken env.githubToken || falsyToken env.netlifyToken then
    ([⟨.error, credsMissingMsg, none⟩], [])
  else
    let ev0 : List ProgressUpdate :=
      [⟨.initializing, "Initializing deployment sequence...", none⟩]
    let calls0 : List NetCall := [.getUser]
    if !env.userOk then
      (ev0 ++ [⟨.error, deployFailMsg "Failed to authenticate with GitHub.", none⟩],
       calls0)
    else
      let ev1 := ev0 ++
        [⟨.creating_repo, "Creating new GitHub repository: " ++ repoName env, none⟩]
      let calls1 := calls0 ++ [.createRepo]
      if !env.repoOk then
        (ev1 ++ [⟨.error,
           deployFailMsg ("Failed to create GitHub repository. Status: " ++ env.repoStatus),
           none⟩], calls1)
      else
        let ev2 := ev1 ++ [⟨.pushing_files, "Uploading application source code...", none⟩]
        let files := getProjectFiles env
        let calls2 := calls1 ++ PROJECT_FILES.map .getProjectFile ++
          (files.filter fun f => !allWs f.2).map fun f => .putFile f.1
        let ev3 := ev2 ++ [⟨.creating_site, "Configuring deployment with Netlify...", none⟩]
        let calls3 := calls2 ++ [.createSite]
        if !env.siteOk then
          (ev3 ++ [⟨.error,
             deployFailMsg ("Failed to create Netlify site. Status: " ++ env.siteStatusText),
             none⟩], calls3)
        else
          (ev3 ++ [⟨.deploying, "Deploying... This may take a moment.", none⟩,
                   ⟨.success, "Deployment complete. The application is now live.",
                    some env.siteSslUrl⟩], calls3)

/-! ### Session controller (`handleSendMessage`, App component)

The controller is modelled as a step function on the session state: the
`isLoading` guard, the user-message append, classification, one adapter
dispatch (whose outcome is supplied by an oracle), the catch branch, and
the `finally` that clears the in-flight flag.  The observable side effects
(classification and the adapter call) are returned explicitly so that a
rejected submission provably performs neither. -/

/-- Message sender. -/
inductive Sender
  | user
  | ai
deriving DecidableEq, Repr

/-- Message kind (restricted to the kinds this model distinguishes). -/
inductive MessageKind
  | text
  | error
deriving DecidableEq, Repr

/-- A chat transcript entry. -/
structure ChatMsg where
  text : String
  sender : Sender
  kind : MessageKind
deriving DecidableEq, Repr

/-- The controller state: the in-flight flag and the transcript. -/
structure SessionState where
  isLoading : Bool
  messages : List ChatMsg
deriving DecidableEq, Repr

/-- An observable action of one submission. -/
inductive SessionEffect
  | classifyCmd
  | adapterCall (i : Intent)
deriving DecidableEq, Repr

/-- The catch-branch text for a thrown non-`Error` value. -/
def unknownErrMsg : String := "An unknown error occurred."

/-- `handleSendMessage`: reject immediately while a prior submission is in
flight; otherwise append the user message, set the flag, classify, dispatch
to the adapter for the classified intent, append the result (or the caught
error message), and clear the flag. -/
def handleSendMessage (s : SessionState) (prompt : String)
    (adapterResult : Intent → Outcome String) : SessionState × List SessionEffect :=
  if s.isLoading then (s, [])
  else
    let withUser := s.messages ++ [⟨prompt, .user, .text⟩]
    let intent := classify prompt.toList
    let after : List ChatMsg :=
      match adapterResult intent with
      | .ok t => withUser ++ [⟨t, .ai, .text⟩]
      | .thrown e =>
        withUser ++ [⟨if e.isError then e.message else unknownErrMsg, .ai, .error⟩]
    (⟨false, after⟩, [.classifyCmd, .adapterCall intent])

/-! ## Helper lemmas -/

/-- A string with nonempty data stays nonempty under appending. -/
theorem append_ne_empty (a b : String) (h : a.data ≠ []) : a ++ b ≠ "" := by
  intro hc
  apply h
  have hd : a.data ++ b.data = [] := by
    have := congrArg String.data hc
    rwa [String.data_append] at this
  exact (List.append_eq_nil.mp hd).1

/-- Only `<` itself is case-insensitively equal to `<`. -/
theorem ciEqChar_lt {x : Char} (h : ciEqChar '<' x = true) : x = '<' := by
  have hx : lowerN x.toNat = 60 := by
    simp only [ciEqChar, beq_iff_eq] at h
    rw [show lowerN (Char.toNat '<') = 60 from by decide] at h
    exact h.symm
  have hnat : x.toNat = 60 := by
    unfold lowerN at hx
    split at hx <;> omega
  exact Char.eq_of_val_eq (UInt32.toNat.inj (show x.toNat = Char.toNat '<' by rw [hnat]; rfl))

/-- Scanning past a character strictly shortens the input. -/
theorem dropUntilAfterChar_length {ch : Char} :
    ∀ {s r : List Char}, dropUntilAfterChar ch s = some r → r.length < s.length := by
  intro s
  induction s with
  | nil => intro r h; simp [dropUntilAfterChar] at h
  | cons c rest ih =>
    intro r h
    by_cases hc : c = ch
    · simp [dropUntilAfterChar, hc] at h
      subst h; simp
    · simp [dropUntilAfterChar, hc] at h
      exact Nat.lt_trans (ih h) (by simp)

/-- Scanning to a closing tag never lengthens the input. -/
theorem findClose_length {close : List Char} :
    ∀ {s r : List Char}, findClose close s = some r → r.length ≤ s.length := by
  intro s
  induction s with
  | nil => intro r h; simp [findClose] at h
  | cons c rest ih =>
    intro r h
    by_cases hp : ciPrefix close (c :: rest) = true
    · simp [findClose, hp] at h
      subst h
      rw [List.length_drop]; omega
    · simp [findClose, hp] at h
      exact Nat.le_trans (ih h) (by simp)

/-- A successful block match strictly shortens the input. -/
theorem matchBlockAt_length {o c s after : List Char}
    (h : matchBlockAt o c s = some after) : after.length < s.length := by
  unfold matchBlockAt at h
  split at h
  · cases hd : dropUntilAfterChar '>' (s.drop o.length) with
    | none => rw [hd] at h; simp at h
    | some rest =>
      rw [hd] at h
      simp only [] at h
      have h1 : rest.length < (s.drop o.length).length := dropUntilAfterChar_length hd
      have h2 : after.length ≤ rest.length := findClose_length h
      have h3 : (s.drop o.length).length ≤ s.length := by
        rw [List.length_drop]; omega
      omega
  · simp at h

/-- The fuelled scanner is fuel-invariant above the input length. -/
theorem replaceBlocksF_fuel {o c : List Char} :
    ∀ (f1 : Nat) (f2 : Nat) (s : List Char), s.length ≤ f1 → s.length ≤ f2 →
      replaceBlocksF o c f1 s = replaceBlocksF o c f2 s := by
  intro f1
  induction f1 with
  | zero =>
    intro f2 s h1 _
    have : s = [] := List.eq_nil_of_length_eq_zero (Nat.le_zero.mp h1)
    subst this
    cases f2 <;> rfl
  | succ n ih =>
    intro f2 s h1 h2
    cases s with
    | nil => cases f2 <;> rfl
    | cons ch rest =>
      cases f2 with
      | zero => simp at h2
      | succ m =>
        simp only [replaceBlocksF]
        cases hm : matchBlockAt o c (ch :: rest) with
        | some after =>
          have hlen := matchBlockAt_length hm
          simp only [List.length_cons] at h1 h2 hlen
          exact ih m after (by omega) (by omega)
        | none =>
          simp only [List.length_cons] at h1 h2
          rw [ih m rest (by omega) (by omega)]

/-- Unfolding `replaceBlocks` at a matching position. -/
theorem replaceBlocks_cons_match {o c : List Char} {ch : Char} {rest after : List Char}
    (h : matchBlockAt o c (ch :: rest) = some after) :
    replaceBlocks o c (ch :: rest) = replaceBlocks o c after := by
  unfold replaceBlocks
  simp only [List.length_cons, replaceBlocksF, h]
  have hlen := matchBlockAt_length h
  simp only [List.length_cons] at hlen
  exact replaceBlocksF_fuel _ _ _ (by omega) (le_refl _)

/-- Unfolding `replaceBlocks` at a non-matching position. -/
theorem replaceBlocks_cons_nomatch {o c : List Char} {ch : Char} {rest : List Char}
    (h : matchBlockAt o c (ch :: rest) = none) :
    replaceBlocks o c (ch :: rest) = ch :: replaceBlocks o c rest := by
  unfold replaceBlocks
  simp only [List.length_cons, replaceBlocksF, h]

/-- A block match fails when the pattern needs `<` but the head is not `<`. -/
theorem matchBlockAt_none_of_ne {o' c : List Char} {x : Char} {s : List Char}
    (hx : x ≠ '<') : matchBlockAt ('<' :: o') c (x :: s) = none := by
  have hp : ciPrefix ('<' :: o') (x :: s) = false := by
    cases hq : ciEqChar '<' x with
    | false => simp [ciPrefix, hq]
    | true => exact absurd (ciEqChar_lt hq) hx
  unfold matchBlockAt
  simp [hp]

/-- A block match fails when the open pattern is not a ci-prefix. -/
theorem matchBlockAt_none_of_not_prefix {o c s : List Char}
    (h : ciPrefix o s = false) : matchBlockAt o c s = none := by
  unfold matchBlockAt
  simp [h]

/-- The scanner passes unchanged over a front segment without `<`
(for a pattern that starts with `<`). -/
theorem replaceBlocks_append_no_lt {o' c : List Char} :
    ∀ {pre tail : List Char}, '<' ∉ pre →
      replaceBlocks ('<' :: o') c (pre ++ tail) = pre ++ replaceBlocks ('<' :: o') c tail := by
  intro pre
  induction pre with
  | nil => intro tail _; rfl
  | cons x pre' ih =>
    intro tail hpre
    have hx : x ≠ '<' := by
      intro hc; exact hpre (by rw [hc]; exact List.mem_cons_self _ _)
    have hm : matchBlockAt ('<' :: o') c (x :: (pre' ++ tail)) = none :=
      matchBlockAt_none_of_ne hx
    rw [List.cons_append, replaceBlocks_cons_nomatch hm,
      ih (fun hmem => hpre (List.mem_cons_of_mem _ hmem)), List.cons_append]

/-- The scanner passes unchanged over a front segment in which the open
pattern has no (possibly spanning) case-insensitive occurrence. -/
theorem replaceBlocks_append_noOccur {o c : List Char} :
    ∀ {xs tail : List Char}, hasCiOccur o xs tail = false →
      replaceBlocks o c (xs ++ tail) = xs ++ replaceBlocks o c tail := by
  intro xs
  induction xs with
  | nil => intro tail _; rfl
  | cons x xs' ih =>
    intro tail hocc
    simp only [hasCiOccur, Bool.or_eq_false_iff] at hocc
    have hm : matchBlockAt o c (x :: (xs' ++ tail)) = none := by
      apply matchBlockAt_none_of_not_prefix
      have := hocc.1
      simpa using this
    rw [List.cons_append, replaceBlocks_cons_nomatch hm, ih hocc.2, List.cons_append]

/-- A ci-prefix test only inspects the first `pat.length` characters. -/
theorem ciPrefix_append_of_le {pat : List Char} :
    ∀ {a : List Char}, pat.length ≤ a.length → ∀ t, ciPrefix pat (a ++ t) = ciPrefix pat a := by
  induction pat with
  | nil => intro a _ t; rfl
  | cons p ps ih =>
    intro a hlen t
    cases a with
    | nil => simp at hlen
    | cons x a' =>
      simp only [List.length_cons] at hlen
      show (ciEqChar p x && ciPrefix ps (a' ++ t)) = (ciEqChar p x && ciPrefix ps a')
      rw [ih (by omega) t]

/-- A ci-equal string is a ci-prefix of itself followed by anything. -/
theorem ciPrefix_of_ciEqList {pat s : List Char} (h : ciEqList pat s = true) (t : List Char) :
    ciPrefix pat (s ++ t) = true := by
  simp only [ciEqList, Bool.and_eq_true, beq_iff_eq] at h
  rw [ciPrefix_append_of_le (le_of_eq h.1) t]
  exact h.2

/-- `[^>]*>` consumes exactly a `>`-free attribute section and the `>`. -/
theorem dropUntilAfterChar_attrs {attrs : List Char} (h : ∀ a ∈ attrs, a ≠ '>') (r : List Char) :
    dropUntilAfterChar '>' (attrs ++ '>' :: r) = some r := by
  induction attrs with
  | nil => simp [dropUntilAfterChar]
  | cons a attrs' ih =>
    have ha : a ≠ '>' := h a (List.mem_cons_self _ _)
    simp only [List.cons_append, dropUntilAfterChar, ha, if_false]
    exact ih fun x hx => h x (List.mem_cons_of_mem _ hx)

/-- The non-greedy close-tag search skips a clean body and stops at the
block's own (ci-equal) closing tag. -/
theorem findClose_skip {close closeT : List Char} (hc : ciEqList close closeT = true)
    (hne : close ≠ []) :
    ∀ {body : List Char}, hasCiOccur close body closeT = false →
      ∀ t, findClose close (body ++ (closeT ++ t)) = some t := by
  have hlen : close.length = closeT.length := by
    simp only [ciEqList, Bool.and_eq_true, beq_iff_eq] at hc
    exact hc.1
  intro body
  induction body with
  | nil =>
    intro _ t
    cases hT : closeT with
    | nil =>
      exfalso
      apply hne
      rw [hT] at hlen
      exact List.eq_nil_of_length_eq_zero (by simpa using hlen)
    | cons z zs =>
      subst hT
      have hp : ciPrefix close (z :: (zs ++ t)) = true := by
        have := ciPrefix_of_ciEqList hc t
        simpa using this
      have hdrop : List.drop close.length (z :: (zs ++ t)) = t := by
        rw [hlen]
        show List.drop ((z :: zs).length) ((z :: zs) ++ t) = t
        exact List.drop_left _ _
      show findClose close (z :: (zs ++ t)) = some t
      simp [findClose, hp, hdrop]
  | cons b bs ih =>
    intro hocc t
    simp only [hasCiOccur, Bool.or_eq_false_iff] at hocc
    have hp : ciPrefix close (b :: (bs ++ (closeT ++ t))) = false := by
      have hle : close.length ≤ ((b :: bs) ++ closeT).length := by
        simp only [List.length_append, List.length_cons]
        omega
      have heq := ciPrefix_append_of_le hle t
      rw [List.append_assoc] at heq
      rw [show (b :: bs) ++ (closeT ++ t) = b :: (bs ++ (closeT ++ t)) from rfl] at heq
      rw [heq]
      simpa using hocc.1
    show findClose close (b :: (bs ++ (closeT ++ t))) = some t
    simp only [findClose, hp, Bool.false_eq_true, if_false]
    exact ih hocc.2 t

/-- The block regex matches a whole well-formed block: ci-equal open tag,
`>`-free attribute section, a body free of (possibly spanning) close-tag
occurrences, and a ci-equal closing tag; the suffix after the match is
whatever follows the block. -/
theorem matchBlockAt_block {openPat close openT closeT attrs body : List Char}
    (ho : ciEqList openPat openT = true)
    (hc : ciEqList close closeT = true) (hcne : close ≠ [])
    (hattrs : ∀ a ∈ attrs, a ≠ '>')
    (hbody : hasCiOccur close body closeT = false) (t : List Char) :
    matchBlockAt openPat close (openT ++ (attrs ++ '>' :: (body ++ (closeT ++ t)))) =
      some t := by
  have holen : openPat.length = openT.length := by
    simp only [ciEqList, Bool.and_eq_true, beq_iff_eq] at ho
    exact ho.1
  unfold matchBlockAt
  rw [ciPrefix_of_ciEqList ho _, if_pos rfl, holen, List.drop_left,
    dropUntilAfterChar_attrs hattrs]
  show findClose close (body ++ (closeT ++ t)) = some t
  exact findClose_skip hc hcne hbody t

/-- The global replacement erases a leading well-formed block and continues
with whatever follows it. -/
theorem replaceBlocks_block {openPat close openT closeT attrs body : List Char}
    (ho : ciEqList openPat openT = true)
    (hone : openPat ≠ [])
    (hc : ciEqList close closeT = true) (hcne : close ≠ [])
    (hattrs : ∀ a ∈ attrs, a ≠ '>')
    (hbody : hasCiOccur close body closeT = false) (t : List Char) :
    replaceBlocks openPat close (openT ++ (attrs ++ '>' :: (body ++ (closeT ++ t)))) =
      replaceBlocks openPat close t := by
  have holen : openPat.length = openT.length := by
    simp only [ciEqList, Bool.and_eq_true, beq_iff_eq] at ho
    exact ho.1
  cases hT : openT with
  | nil =>
    exfalso
    apply hone
    rw [hT] at holen
    exact List.eq_nil_of_length_eq_zero (by simpa using holen)
  | cons z zs =>
    have hm := matchBlockAt_block ho hc hcne hattrs hbody t
    rw [hT] at hm
    exact replaceBlocks_cons_match hm

/-- `styleOpen` spelled with its head character explicit. -/
theorem styleOpen_eq : styleOpen = '<' :: "style".toList := by decide

/-- `scriptOpen` spelled with its head character explicit. -/
theorem scriptOpen_eq : scriptOpen = '<' :: "script".toList := by decide

/-! ## Claim theorems -/

/-- C2 (counterexample): the claim fails as stated.  The command
`ftp://x tell me about y` contains a URL of the spec's form
`scheme://nonwhitespace+` and a search-trigger phrase, matches no
modification prefix and no image-request phrase, yet classification
returns `GroundedSearch`, not `UrlAnalysis` — the code's URL rule only
recognizes literal `http://`/`https://` schemes. -/
theorem classify_url_priority_cex :
    hasSpecUrl "ftp://x tell me about y".toList = true ∧
    searchKeywords.any (fun k => ciContains k "ftp://x tell me about y".toList) = true ∧
    modificationKeywords.any (fun k => ciPrefix k "ftp://x tell me about y".toList) = false ∧
    ciContains "generate image".toList "ftp://x tell me about y".toList = false ∧
    ciContains "show me a picture".toList "ftp://x tell me about y".toList = false ∧
    classify "ftp://x tell me about y".toList ≠ Intent.UrlAnalysis := by
  decide

/-- C2 (amended): for every command that contains a URL of the form
`https?://nonwhitespace+` (the rule the code implements) and a
search-trigger phrase, and matches no modification prefix and no
image-request phrase, classification returns `UrlAnalysis`: the URL rule is
evaluated before the search rule. -/
theorem classify_url_priority (p : List Char)
    (hurl : hasUrl p = true)
    (_hsearch : searchKeywords.any (fun k => ciContains k p) = true)
    (hmod : modificationKeywords.any (fun k => ciPrefix k p) = false)
    (himg1 : ciContains "generate image".toList p = false)
    (himg2 : ciContains "show me a picture".toList p = false) :
    classify p = Intent.UrlAnalysis := by
  unfold classify
  rw [hurl, hmod, himg1, himg2]
  simp

/-- C2 (witness): a concrete command with both an `https://` URL and a
search phrase classifies as `UrlAnalysis`. -/
theorem classify_url_priority_witness :
    hasUrl "search for https://x.com info".toList = true ∧
    searchKeywords.any (fun k => ciContains k "search for https://x.com info".toList) = true ∧
    modificationKeywords.any (fun k => ciPrefix k "search for https://x.com info".toList) = false ∧
    ciContains "generate image".toList "search for https://x.com info".toList = false ∧
    ciContains "show me a picture".toList "search for https://x.com info".toList = false ∧
    classify "search for https://x.com info".toList = Intent.UrlAnalysis :=
  ⟨by decide, by decide, by decide, by decide, by decide,
   classify_url_priority _ (by decide) (by decide) (by decide) (by decide) (by decide)⟩

/-- C4: `generateGroundedResponse` deduplicates cited sources by `uri`
with last-seen-wins: on the source list
`[{uri:"a",title:"X"},{uri:"a",title:"Y"},{uri:"b",title:"Z"}]` the result
has exactly 2 entries and the `"a"` entry carries title `"Y"`. -/
theorem grounded_dedup_last_wins :
    generateGroundedResponse true (.ok ⟨"t",
      some [⟨some ⟨some "a", some "X"⟩⟩, ⟨some ⟨some "a", some "Y"⟩⟩,
            ⟨some ⟨some "b", some "Z"⟩⟩]⟩) = ("t", [⟨"a", "Y"⟩, ⟨"b", "Z"⟩]) ∧
    uniqueSources [⟨"a", "X"⟩, ⟨"a", "Y"⟩, ⟨"b", "Z"⟩] = [⟨"a", "Y"⟩, ⟨"b", "Z"⟩] ∧
    (uniqueSources [⟨"a", "X"⟩, ⟨"a", "Y"⟩, ⟨"b", "Z"⟩]).length = 2 := by
  decide

/-- C5: for every input markup, the extracted text is at most 15,000
characters long. -/
theorem extractText_length_bound (html : List Char) :
    (extractText html).length ≤ 15000 := by
  unfold extractText
  exact List.length_take_le _ _

/-- C7 (counterexample): the claim fails as stated.  A provider failure
whose `Error` message contains `API_KEY` is rethrown by
`generateImageResponse` unchanged — the raw provider exception surfaces to
the adapter's caller instead of being converted to the capability-specific
failure message. -/
theorem image_raw_error_cex :
    generateImageResponse true (.thrown ⟨true, "Invalid API_KEY provided"⟩) =
      .thrown ⟨true, "Invalid API_KEY provided"⟩ ∧
    ("Invalid API_KEY provided" : String) ≠ imageFailMsg ∧
    ("Invalid API_KEY provided" : String) ≠ missingKeyMsg := by
  decide

/-- C7 (amended): on every provider failure, the text, grounded-search,
website-analysis and code-modification adapters return their
capability-specific user-facing failure message (they never throw), and the
image adapter converts the failure into a thrown `Error` with its
capability-specific message — except that it rethrows, unchanged, a
provider `Error` whose message contains the literal (case-sensitive)
substring `API_KEY`. -/
theorem adapters_convert_failures (e : JsErr) :
    generateTextResponse true (.thrown e) = malfunctionMsg ∧
    generateGroundedResponse true (.thrown e) = (groundedFailMsg, []) ∧
    generateWebsiteAnalysis true (.thrown e) = websiteFailMsg ∧
    generateCodeModification true (.thrown e) = ⟨codeModFailMsg, []⟩ ∧
    generateImageResponse true (.thrown e) =
      (if e.isError && containsSub "API_KEY".toList e.message.toList then .thrown e
       else .thrown ⟨true, imageFailMsg⟩) :=
  ⟨rfl, rfl, rfl, rfl, rfl⟩

/-- C10: when the client cannot be initialized (missing API key):
`generateTextResponse`, `generateGroundedResponse`,
`generateWebsiteAnalysis` and `generateCodeModification` each return a
normal result carrying the fixed missing-key apology, whereas
`generateImageResponse` throws an `Error` carrying that message. -/
theorem missing_key_paths (pt : Outcome String) (pg : Outcome GroundedResp)
    (pw : Outcome String) (pc : Outcome (Option CodeModificationPayload))
    (pi : Outcome ImagesResp) :
    generateTextResponse false pt = missingKeyMsg ∧
    generateGroundedResponse false pg = (missingKeyMsg, []) ∧
    generateWebsiteAnalysis false pw = missingKeyMsg ∧
    generateCodeModification false pc = ⟨missingKeyMsg, []⟩ ∧
    generateImageResponse false pi = .thrown ⟨true, missingKeyMsg⟩ :=
  ⟨rfl, rfl, rfl, rfl, rfl⟩

/-- C9: a submission arriving while a prior one is in flight is rejected —
the state is unchanged and no classification, adapter call, or event
occurs — and an accepted submission always clears the in-flight flag on
completion (success or failure alike). -/
theorem session_single_flight (s : SessionState) (prompt : String)
    (a : Intent → Outcome String) :
    (s.isLoading = true → handleSendMessage s prompt a = (s, [])) ∧
    (s.isLoading = false → (handleSendMessage s prompt a).1.isLoading = false) := by
  constructor
  · intro h
    simp [handleSendMessage, h]
  · intro h
    simp [handleSendMessage, h]

/-- C9 (witness): concrete instances of both parts of the single-flight
property. -/
theorem session_single_flight_witness :
    ((⟨true, []⟩ : SessionState).isLoading = true ∧
      handleSendMessage ⟨true, []⟩ "deploy" (fun _ => .ok "k") = (⟨true, []⟩, [])) ∧
    ((⟨false, []⟩ : SessionState).isLoading = false ∧
      (handleSendMessage ⟨false, []⟩ "deploy" (fun _ => .thrown ⟨true, "boom"⟩)).1.isLoading = false) :=
  ⟨⟨rfl, (session_single_flight ⟨true, []⟩ "deploy" (fun _ => .ok "k")).1 rfl⟩,
   ⟨rfl, (session_single_flight ⟨false, []⟩ "deploy" (fun _ => .thrown ⟨true, "boom"⟩)).2 rfl⟩⟩

/-- Helper: the full event list of a run in which both tokens are present
and every checked external response is `ok`. -/
theorem deployApp_happy_events (env : DeployEnv)
    (hg : falsyToken env.githubToken = false) (hn : falsyToken env.netlifyToken = false)
    (hu : env.userOk = true) (hr : env.repoOk = true) (hs : env.siteOk = true) :
    (deployApp env).1 =
      [⟨.initializing, "Initializing deployment sequence...", none⟩,
       ⟨.creating_repo, "Creating new GitHub repository: " ++ repoName env, none⟩,
       ⟨.pushing_files, "Uploading application source code...", none⟩,
       ⟨.creating_site, "Configuring deployment with Netlify...", none⟩,
       ⟨.deploying, "Deploying... This may take a moment.", none⟩,
       ⟨.success, "Deployment complete. The application is now live.",
        some env.siteSslUrl⟩] := by
  unfold deployApp
  rw [hg, hn, hu, hr, hs]
  simp

/-- C1: in a run where both credential tokens are present and every checked
external call succeeds (authentication, repository creation, site creation,
returning a nonempty site URL), `deployApp` emits exactly the six progress
events `initializing, creating_repo, pushing_files, creating_site,
deploying, success` in that order, each with a non-empty message, and the
final `success` event carries the non-empty site URL. -/
theorem deployApp_happy_path (env : DeployEnv)
    (hg : falsyToken env.githubToken = false) (hn : falsyToken env.netlifyToken = false)
    (hu : env.userOk = true) (hr : env.repoOk = true) (hs : env.siteOk = true)
    (hurl : env.siteSslUrl ≠ "") :
    (deployApp env).1.map ProgressUpdate.status =
      [.initializing, .creating_repo, .pushing_files, .creating_site,
       .deploying, .success] ∧
    (∀ u ∈ (deployApp env).1, u.message ≠ "") ∧
    ((deployApp env).1.getLast?).bind ProgressUpdate.url = some env.siteSslUrl ∧
    env.siteSslUrl ≠ "" := by
  have he := deployApp_happy_events env hg hn hu hr hs
  refine ⟨?_, ?_, ?_, hurl⟩
  · rw [he]
    rfl
  · rw [he]
    intro u hmem
    simp only [List.mem_cons, List.not_mem_nil, or_false] at hmem
    rcases hmem with rfl | rfl | rfl | rfl | rfl | rfl
    · decide
    · exact append_ne_empty _ _ (by decide)
    · decide
    · decide
    · decide
    · show ("Deployment complete. The application is now live." : String) ≠ ""
      decide
  · rw [he]
    rfl

/-- C1 (witness): a concrete all-successful environment realizes the happy
path. -/
theorem deployApp_happy_path_witness :
    (falsyToken (some "gh-token") = false ∧ falsyToken (some "nl-token") = false ∧
      (some "https://site.netlify.app" : Option String) ≠ none) ∧
    (deployApp ⟨some "gh-token", some "nl-token", true, true, "201",
        fun _ => true, fun _ => "content", fun _ => true, true, "OK",
        "https://site.netlify.app", "1700000000000"⟩).1.map ProgressUpdate.status =
      [.initializing, .creating_repo, .pushing_files, .creating_site,
       .deploying, .success] :=
  ⟨⟨rfl, rfl, by decide⟩,
   (deployApp_happy_path ⟨some "gh-token", some "nl-token", true, true, "201",
      fun _ => true, fun _ => "content", fun _ => true, true, "OK",
      "https://site.netlify.app", "1700000000000"⟩
      (by decide) (by decide) rfl rfl rfl (by decide)).1⟩

/-- C3: if either credential token is absent (falsy), `deployApp` emits
exactly one progress event — an `error` whose message states the
credentials are missing — and performs zero network calls. -/
theorem deployApp_missing_creds (env : DeployEnv)
    (h : falsyToken env.githubToken = true ∨ falsyToken env.netlifyToken = true) :
    deployApp env = ([⟨.error, credsMissingMsg, none⟩], []) ∧
    ciContains "credentials".toList credsMissingMsg.toList = true := by
  constructor
  · unfold deployApp
    rcases h with h | h <;> rw [h] <;> simp
  · decide

/-- C3 (witness): a concrete environment with no repository token yields
exactly the single error event and no network calls. -/
theorem deployApp_missing_creds_witness :
    (falsyToken (none : Option String) = true ∨ falsyToken (some "nl-token") = true) ∧
    deployApp ⟨none, some "nl-token", true, true, "201", fun _ => true,
        fun _ => "content", fun _ => true, true, "OK", "https://s", "0"⟩ =
      ([⟨.error, credsMissingMsg, none⟩], []) :=
  ⟨Or.inl rfl,
   (deployApp_missing_creds ⟨none, some "nl-token", true, true, "201", fun _ => true,
      fun _ => "content", fun _ => true, true, "OK", "https://s", "0"⟩ (Or.inl rfl)).1⟩

/-- C8: the pipeline never consults the per-file `PUT` responses: a run is
identical for every assignment of file-upload responses, and in particular
a run whose uploads all fail still proceeds through `creating_site` to
`success`. -/
theorem push_failures_not_checked (env : DeployEnv) (f : String → Bool)
    (hg : falsyToken env.githubToken = false) (hn : falsyToken env.netlifyToken = false)
    (hu : env.userOk = true) (hr : env.repoOk = true) (hs : env.siteOk = true) :
    deployApp { env with filePutOk := f } = deployApp env ∧
    (deployApp { env with filePutOk := f }).1.map ProgressUpdate.status =
      [.initializing, .creating_repo, .pushing_files, .creating_site,
       .deploying, .success] := by
  have h1 : deployApp { env with filePutOk := f } = deployApp env := by
    cases env
    rfl
  refine ⟨h1, ?_⟩
  rw [h1, deployApp_happy_events env hg hn hu hr hs]
  rfl

/-- C8 (witness): with every file upload failing, the run still reaches
`success` and equals the run with all uploads succeeding. -/
theorem push_failures_not_checked_witness :
    deployApp ⟨some "g", some "n", true, true, "201", fun _ => true,
        fun _ => "x", fun _ => false, true, "OK", "https://s", "0"⟩ =
      deployApp ⟨some "g", some "n", true, true, "201", fun _ => true,
        fun _ => "x", fun _ => true, true, "OK", "https://s", "0"⟩ ∧
    (deployApp ⟨some "g", some "n", true, true, "201", fun _ => true,
        fun _ => "x", fun _ => false, true, "OK", "https://s", "0"⟩).1.map
      ProgressUpdate.status =
      [.initializing, .creating_repo, .pushing_files, .creating_site,
       .deploying, .success] :=
  push_failures_not_checked ⟨some "g", some "n", true, true, "201", fun _ => true,
    fun _ => "x", fun _ => true, true, "OK", "https://s", "0"⟩
    (fun _ => false) rfl rfl rfl rfl rfl

/-- C6 (counterexample): the claim fails as stated.  In the markup
`<script>x<style></script>evil</style>` the script block
`<script>x<style></script>` (open tag to the first closing script tag)
contains the character `x`; because the style pass runs first and consumes
`<style></style>`-to-`</style>` spans, the style removal swallows the
closing script tag and the leftover `x` of the script content survives
every later pass: the extracted text is exactly `x`. -/
theorem extractText_strip_cex :
    "<script>x<style></script>evil</style>".toList =
      "<script>".toList ++ ("x<style>".toList ++ ("</script>".toList ++ "evil</style>".toList)) ∧
    extractText "<script>x<style></script>evil</style>".toList = "x".toList := by
  constructor
  · decide
  · decide

/-- C6 (amended): the extractor removes the entire content of every
`<script>…</script>` and `<style>…</style>` block — uppercase tags,
attribute sections and newline-spanning bodies included — provided the
block is well-formed and does not interleave with a block of the other
kind: the attribute section contains no `>`, the body contains no (possibly
spanning) occurrence of the block's closing tag, the block contains no
occurrence of the other kind's opening tag, and no `<` precedes the block.
Removing such a block never changes the extracted text. -/
theorem extractText_removes_block (isStyle : Bool)
    (pre attrs body openT closeT post : List Char)
    (hpre : '<' ∉ pre)
    (hopen : ciEqList (if isStyle then styleOpen else scriptOpen) openT = true)
    (hclose : ciEqList (if isStyle then styleClose else scriptClose) closeT = true)
    (hattrs : ∀ a ∈ attrs, a ≠ '>')
    (hbody : hasCiOccur (if isStyle then styleClose else scriptClose) body closeT = false)
    (hother : hasCiOccur (if isStyle then scriptOpen else styleOpen)
        (openT ++ (attrs ++ '>' :: (body ++ closeT))) post = false) :
    extractText (pre ++ (openT ++ (attrs ++ '>' :: (body ++ (closeT ++ post))))) =
      extractText (pre ++ post) := by
  cases isStyle with
  | true =>
    have ho : ciEqList styleOpen openT = true := hopen
    have hcl : ciEqList styleClose closeT = true := hclose
    have hb : hasCiOccur styleClose body closeT = false := hbody
    have e1 : replaceBlocks styleOpen styleClose
        (pre ++ (openT ++ (attrs ++ '>' :: (body ++ (closeT ++ post))))) =
        pre ++ replaceBlocks styleOpen styleClose post := by
      rw [styleOpen_eq, replaceBlocks_append_no_lt hpre, ← styleOpen_eq,
        replaceBlocks_block ho (by decide) hcl (by decide) hattrs hb post]
    have e2 : replaceBlocks styleOpen styleClose (pre ++ post) =
        pre ++ replaceBlocks styleOpen styleClose post := by
      rw [styleOpen_eq, replaceBlocks_append_no_lt hpre]
    unfold extractText
    rw [e1, e2]
  | false =>
    have ho : ciEqList scriptOpen openT = true := hopen
    have hcl : ciEqList scriptClose closeT = true := hclose
    have hb : hasCiOccur scriptClose body closeT = false := hbody
    have hoth : hasCiOccur styleOpen
        (openT ++ (attrs ++ '>' :: (body ++ closeT))) post = false := hother
    have hshape : openT ++ (attrs ++ '>' :: (body ++ (closeT ++ post))) =
        (openT ++ (attrs ++ '>' :: (body ++ closeT))) ++ post := by
      simp [List.append_assoc]
    have s1 : replaceBlocks styleOpen styleClose
        (pre ++ (openT ++ (attrs ++ '>' :: (body ++ (closeT ++ post))))) =
        pre ++ ((openT ++ (attrs ++ '>' :: (body ++ closeT))) ++
          replaceBlocks styleOpen styleClose post) := by
      rw [styleOpen_eq, replaceBlocks_append_no_lt hpre, ← styleOpen_eq, hshape,
        replaceBlocks_append_noOccur hoth]
    have hshape2 : (openT ++ (attrs ++ '>' :: (body ++ closeT))) ++
        replaceBlocks styleOpen styleClose post =
        openT ++ (attrs ++ '>' :: (body ++ (closeT ++
          replaceBlocks styleOpen styleClose post))) := by
      simp [List.append_assoc]
    have s2 : replaceBlocks scriptOpen scriptClose
        (pre ++ ((openT ++ (attrs ++ '>' :: (body ++ closeT))) ++
          replaceBlocks styleOpen styleClose post)) =
        pre ++ replaceBlocks scriptOpen scriptClose
          (replaceBlocks styleOpen styleClose post) := by
      rw [scriptOpen_eq, replaceBlocks_append_no_lt hpre, ← scriptOpen_eq, hshape2,
        replaceBlocks_block ho (by decide) hcl (by decide) hattrs hb _]
    have r1 : replaceBlocks styleOpen styleClose (pre ++ post) =
        pre ++ replaceBlocks styleOpen styleClose post := by
      rw [styleOpen_eq, replaceBlocks_append_no_lt hpre]
    have r2 : replaceBlocks scriptOpen scriptClose
        (pre ++ replaceBlocks styleOpen styleClose post) =
        pre ++ replaceBlocks scriptOpen scriptClose
          (replaceBlocks styleOpen styleClose post) := by
      rw [scriptOpen_eq, replaceBlocks_append_no_lt hpre]
    unfold extractText
    rw [s1, s2, r1, r2]

/-- C6 (witness): an uppercase, attributed, newline-spanning script block is
removed entirely from concrete markup. -/
theorem extractText_removes_block_witness :
    ('<' ∉ "a ".toList) ∧
    ciEqList (if false then styleOpen else scriptOpen) "<SCRIPT".toList = true ∧
    ciEqList (if false then styleClose else scriptClose) "</Script>".toList = true ∧
    (∀ a ∈ " type=x".toList, a ≠ '>') ∧
    hasCiOccur (if false then styleClose else scriptClose) "alert(1);\n y".toList
      "</Script>".toList = false ∧
    hasCiOccur (if false then scriptOpen else styleOpen)
      ("<SCRIPT".toList ++ (" type=x".toList ++ '>' ::
        ("alert(1);\n y".toList ++ "</Script>".toList))) " b".toList = false ∧
    extractText ("a ".toList ++ ("<SCRIPT".toList ++ (" type=x".toList ++ '>' ::
      ("alert(1);\n y".toList ++ ("</Script>".toList ++ " b".toList))))) =
      extractText ("a ".toList ++ " b".toList) :=
  ⟨by decide, by decide, by decide, by decide, by decide, by decide,
   extractText_removes_block false "a ".toList " type=x".toList
     "alert(1);\n y".toList "<SCRIPT".toList "</Script>".toList " b".toList
     (by decide) (by decide) (by decide) (by decide) (by decide) (by decide)⟩

end Alfreyaa
